import Mathlib

/-!
Verification development for the `latex` package of goldmark-latex
(`latex.go`): a LaTeX renderer for the goldmark Markdown AST.

Byte sequences are modelled as `List Nat` (one `Nat` per byte; all byte
values occurring in the source's tables are below 256).  Pure Go functions
become Lean functions; the two runtime panics reachable in the source (the
heading-table index overflow and the unicode zero-padding slice underflow)
are modelled with `Except`.
-/

/-- Bytes of an ASCII string literal (every literal taken from the source is
ASCII, so code points and UTF-8 bytes coincide). -/
def strBytes (s : String) : List Nat := s.toList.map Char.toNat

/-! ## Escaping engine (`escapeTable`, `escapeLaTeX`) -/

/-- The `escapeTable` of `latex.go`: a 256-entry array whose non-nil entries
map a reserved byte to its multi-byte LaTeX substitution; every other byte
maps to `none` (Go `nil`). -/
def escapeTable (b : Nat) : Option (List Nat) :=
  if b = 92 then some (strBytes "\\textbackslash~")
  else if b = 126 then some (strBytes "\\textasciitilde~")
  else if b = 94 then some (strBytes "\\textasciicircum~")
  else if b = 38 then some (strBytes "\\&")
  else if b = 37 then some (strBytes "\\%")
  else if b = 36 then some (strBytes "\\$")
  else if b = 35 then some (strBytes "\\#")
  else if b = 95 then some (strBytes "\\_")
  else if b = 123 then some (strBytes "\\\x7b")
  else if b = 125 then some (strBytes "\\\x7d")
  else none

/-- The single left-to-right scan of `escapeLaTeX` in `latex.go`.  The Go
loop keeps a copy-from cursor `start` and a scan cursor `end`; here `run` is
the pending unescaped slice `s[start:end]` and the argument list is the
unscanned suffix `s[end:]`.  On a reserved byte the pending run is flushed,
the substitution emitted and the cursor moved past the byte; at end of input
the remaining run is flushed. -/
def escapeRun (run : List Nat) : List Nat → List Nat
  | [] => run
  | b :: rest =>
    match escapeTable b with
    | some esc => run ++ esc ++ escapeRun [] rest
    | none => escapeRun (run ++ [b]) rest

/-- `escapeLaTeX` of `latex.go` (the writer argument is modelled by
returning the written bytes). -/
def escapeLaTeX (s : List Nat) : List Nat := escapeRun [] s

/-- The claim's independent characterization of the escaping engine: the
concatenation, in order, of the substitution for each reserved byte and the
byte itself for every other byte. -/
def escapeConcat (s : List Nat) : List Nat :=
  s.flatMap fun b => match escapeTable b with | some esc => esc | none => [b]

/-! ## Raw code-block lines (`writeRawLines`, `endCmdPrefix`) -/

/-- `endCmdPrefix` of `latex.go`: the literal byte sequence whose presence in
a code-block line would close the verbatim environment early. -/
def endCmdPrefix : List Nat := strBytes "\\end"

/-- Go `bytes.HasPrefix`-style check used by the substring search. -/
def leadsWith : List Nat → List Nat → Bool
  | _, [] => true
  | [], _ :: _ => false
  | a :: as, b :: bs => a == b && leadsWith as bs

/-- Go `bytes.Contains(text, needle)`: raw substring search. -/
def containsSeq : List Nat → List Nat → Bool
  | [], needle => needle.isEmpty
  | hay@(_ :: rest), needle => leadsWith hay needle || containsSeq rest needle

/-- The diagnostic comment that replaces a filtered code-block line (the
trailing `%` turns the echoed line itself into a comment). -/
def skipDiag : List Nat :=
  strBytes "% goldmark-latex: Skipped following line due to possibly unsafe content:\n%"

/-- One iteration of the loop of `writeRawLines` in `latex.go`: the bytes
written for a single source line of a (fenced) code block. -/
def writeRawLine (unsafeMode : Bool) (text : List Nat) : List Nat :=
  if unsafeMode || !(containsSeq text endCmdPrefix) then text
  else skipDiag ++ text

/-- `writeRawLines` of `latex.go`: each line of the block in order. -/
def writeRawLines (unsafeMode : Bool) (lines : List (List Nat)) : List Nat :=
  lines.flatMap (writeRawLine unsafeMode)

/-! ## Code spans (`renderCodeSpan`) -/

/-- The fixed code-span opener `codeSpanStart` of `latex.go`. -/
def codeSpanStart : List Nat := strBytes "\\texttt\x7b"

/-- The bytes `renderCodeSpan` writes for one child text segment: a segment
with a trailing newline (Go `bytes.HasSuffix(value, "\n")`) is escaped
without the newline and followed by a single space, any other segment is
escaped whole. -/
def codeSpanPiece (value : List Nat) : List Nat :=
  if value.getLast? = some 10 then escapeLaTeX (value.dropLast) ++ [32]
  else escapeLaTeX value

/-- The full bytes emitted for a code-span node (enter handler writes the
opener and every child segment and skips the children; the exit handler
writes the closing brace). -/
def renderCodeSpanOut (segs : List (List Nat)) : List Nat :=
  codeSpanStart ++ segs.flatMap codeSpanPiece ++ [125]

/-! ## UTF-8 decoding and the unicode declaration collector -/

/-- Go `utf8.DecodeRune` on the byte sequence `b0 :: rest`: returns the
decoded code point and the number of bytes consumed.  Invalid, overlong,
surrogate, out-of-range and truncated sequences all decode to the
replacement character `0xFFFD` with size 1, as in the Go standard library. -/
def decodeFrom (b0 : Nat) (rest : List Nat) : Nat × Nat :=
  if b0 < 0x80 then (b0, 1)
  else if b0 < 0xC2 then (0xFFFD, 1)
  else if b0 < 0xE0 then
    match rest with
    | b1 :: _ =>
      if 0x80 ≤ b1 ∧ b1 ≤ 0xBF then ((b0 % 0x20) * 0x40 + b1 % 0x40, 2)
      else (0xFFFD, 1)
    | [] => (0xFFFD, 1)
  else if b0 < 0xF0 then
    let lo := if b0 = 0xE0 then 0xA0 else 0x80
    let hi := if b0 = 0xED then 0x9F else 0xBF
    match rest with
    | b1 :: b2 :: _ =>
      if (lo ≤ b1 ∧ b1 ≤ hi) ∧ (0x80 ≤ b2 ∧ b2 ≤ 0xBF) then
        ((b0 % 0x10) * 0x1000 + (b1 % 0x40) * 0x40 + b2 % 0x40, 3)
      else (0xFFFD, 1)
    | _ => (0xFFFD, 1)
  else if b0 < 0xF5 then
    let lo := if b0 = 0xF0 then 0x90 else 0x80
    let hi := if b0 = 0xF4 then 0x8F else 0xBF
    match rest with
    | b1 :: b2 :: b3 :: _ =>
      if (lo ≤ b1 ∧ b1 ≤ hi) ∧ (0x80 ≤ b2 ∧ b2 ≤ 0xBF) ∧ (0x80 ≤ b3 ∧ b3 ≤ 0xBF) then
        ((b0 % 8) * 0x40000 + (b1 % 0x40) * 0x1000 + (b2 % 0x40) * 0x40 + b3 % 0x40, 4)
      else (0xFFFD, 1)
    | _ => (0xFFFD, 1)
  else (0xFFFD, 1)

/-- The fuel-indexed decoding loop of the Document enter handler in
`latex.go` (`for i < n { char, lchar := utf8.DecodeRune(source[i:]); i +=
lchar; ... }`): the list of `(code point, encoded length)` pairs in source
order.  Each iteration consumes at least one byte, so fuel `source.length`
is always enough. -/
def runeSeqF : Nat → List Nat → List (Nat × Nat)
  | 0, _ => []
  | _ + 1, [] => []
  | fuel + 1, b :: rest =>
    let p := decodeFrom b rest
    p :: runeSeqF fuel ((b :: rest).drop p.2)

/-- The sequence of decoded `(code point, encoded length)` pairs of a raw
source buffer. -/
def runeSeq (source : List Nat) : List (Nat × Nat) := runeSeqF source.length source

/-- The byte of one lower-case hexadecimal digit. -/
def hexDigit (n : Nat) : Nat := if n < 10 then 48 + n else 87 + n

/-- Little-endian hex digits of `x` (empty for `x = 0`), fuel-indexed; fuel
`x` is always enough since a positive number has at most `x` digits. -/
def hexRev : Nat → Nat → List Nat
  | 0, _ => []
  | _ + 1, 0 => []
  | fuel + 1, x => hexDigit (x % 16) :: hexRev fuel (x / 16)

/-- Go `strconv.FormatUint(x, 16)`: minimal-width lower-case hexadecimal. -/
def hexBytes (x : Nat) : List Nat := if x = 0 then [48] else (hexRev x x).reverse

/-- The zero-padding slice `zeropad[:2-(len(num)-2)]` of the Document enter
handler (`zeropad = "00"`).  In Go the slice bound is an `int`; a bound
below `0` or above `len(zeropad) = 2` makes the slice expression panic,
modelled by `none`.  `numLen` is the length of the hex form of the code
point. -/
def padFor (numLen : Nat) : Option (List Nat) :=
  let j : Int := 2 - ((numLen : Int) - 2)
  if 0 ≤ j ∧ j ≤ 2 then some (List.take j.toNat [48, 48]) else none

/-- The error values of the two panics of `latex.go` reachable through the
registered handlers. -/
inductive RenderErr where
  | headingOOB
  | padOOB
  deriving DecidableEq, Repr

/-- The bytes written for one unicode declaration directive
(`\DeclareUnicodeCharacter{<hex>}{<replacement>}`), or the padding panic. -/
def emitDecl (char : Nat) (replace : List Nat) : Except RenderErr (List Nat) :=
  match padFor (hexBytes char).length with
  | none => .error .padOOB
  | some pad =>
    .ok (strBytes "\\DeclareUnicodeCharacter\x7b" ++ pad ++ hexBytes char ++
      strBytes "\x7d\x7b" ++ replace ++ strBytes "\x7d\n")

/-- The declaration loop of the Document enter handler in `latex.go`, over
the decoded rune sequence: skip single-byte (ASCII / invalid) units, skip
already-declared code points, mark the code point declared, query the
configured mapping, and emit a directive when it signals replacement.
Returns the `(code point, directive bytes)` pairs in emission order. -/
def declLoop (f : Nat → List Nat × Bool) (declared : List Nat) :
    List (Nat × Nat) → Except RenderErr (List (Nat × List Nat))
  | [] => .ok []
  | (r, l) :: rest =>
    if l = 1 then declLoop f declared rest
    else if r ∈ declared then declLoop f declared rest
    else if (f r).2 then
      match emitDecl r (f r).1 with
      | .error e => .error e
      | .ok dir =>
        match declLoop f (r :: declared) rest with
        | .error e => .error e
        | .ok tail => .ok ((r, dir) :: tail)
    else declLoop f (r :: declared) rest

/-- First-occurrence deduplication with an explicit seen set: the canonical
description of the `declared` map of the Document enter handler. -/
def fdAux (seen : List Nat) : List Nat → List Nat
  | [] => []
  | c :: cs => if c ∈ seen then fdAux seen cs else c :: fdAux (c :: seen) cs

/-- The multi-byte (non-ASCII) code points of a decoded rune sequence, in
source order (the loop skips exactly the units of encoded length 1). -/
def nonAsciiRunes (rs : List (Nat × Nat)) : List Nat :=
  (rs.filter fun p => p.2 != 1).map Prod.fst

/-! ## Heading leveler (`renderHeading`, `headingTable`) -/

/-- `bool2int` of `latex.go`. -/
def bool2int (b : Bool) : Nat := if b then 1 else 0

/-- `headingTable` of `latex.go`: six rows (indices 0–5), each with the
numbered command at inner index 0 and the starred (unnumbered) command at
inner index 1; the deepest row falls back to bold for both. -/
def headingTable : List (List Nat × List Nat) :=
  [(strBytes "\\section\x7b", strBytes "\\section*\x7b"),
   (strBytes "\\subsection\x7b", strBytes "\\subsection*\x7b"),
   (strBytes "\\subsubsection\x7b", strBytes "\\subsubsection*\x7b"),
   (strBytes "\\paragraph\x7b", strBytes "\\paragraph*\x7b"),
   (strBytes "\\subparagraph\x7b", strBytes "\\subparagraph*\x7b"),
   (strBytes "\\textbf\x7b", strBytes "\\textbf\x7b")]

/-- The index computation of `renderHeading` in `latex.go`:
`max(0, min(6, r.HeadingLevelOffset+n.Level-1))`, over Go `int`s. -/
def headingIndexGo (offset : Int) (level : Nat) : Int :=
  max 0 (min 6 (offset + level - 1))

/-- The index selection the claim describes:
`clamp(level - 1 + offset, 0, 5)`. -/
def headingClampSpec (offset : Int) (level : Nat) : Int :=
  max 0 (min 5 ((level : Int) - 1 + offset))

/-- The row of `headingTable` the heading handler reads (Go's
`headingTable[headingLevel]`); `none` models the index-out-of-range panic. -/
def headingRow (offset : Int) (level : Nat) : Option (List Nat × List Nat) :=
  headingTable.get? (headingIndexGo offset level).toNat

/-! ## Autolinks (`renderAutoLink`, `haslowerprefix`, `mailToPrefix`) -/

/-- Go `utf8.DecodeRune` including the empty-input case `(RuneError, 0)`. -/
def decodeRune : List Nat → Nat × Nat
  | [] => (0xFFFD, 0)
  | b :: rest => decodeFrom b rest

/-- Modelled from the spec: the locale-invariant simple case fold
(`unicode.ToLower` of the Go standard library, an external collaborator)
used by the allocation-free prefix comparison.  Exact on the ASCII range and
the identity elsewhere; every comparison in this development is against the
all-ASCII marker `mailToPrefix`, where the byte-length equality test already
rejects any non-ASCII position before the fold's value matters. -/
def toLowerGo (r : Nat) : Nat := if 65 ≤ r ∧ r ≤ 90 then r + 32 else r

/-- The loop of `haslowerprefix` in `latex.go`, fuel-indexed (fuel
`a.length` is always enough since every step consumes at least one byte).
The Go loop decodes both operands at the same byte offset `i` and advances
by the first operand's rune length after checking the two lengths are equal;
here the common consumed head is dropped from both suffixes.  The loop runs
while `i < min(len(a), len(b))`, so an exhausted operand ends it with
`true`. -/
def haslowerprefixF : Nat → List Nat → List Nat → Bool
  | 0, _, _ => true
  | _ + 1, [], _ => true
  | _ + 1, _ :: _, [] => true
  | fuel + 1, a@(_ :: _), b@(_ :: _) =>
    let p := decodeRune a
    let q := decodeRune b
    if p.2 ≠ q.2 ∨ toLowerGo p.1 ≠ toLowerGo q.1 then false
    else haslowerprefixF fuel (a.drop p.2) (b.drop p.2)

/-- `haslowerprefix` of `latex.go`: allocation-free
`bytes.HasPrefix(bytes.ToLower(a), bytes.ToLower(b))`. -/
def haslowerprefix (a b : List Nat) : Bool := haslowerprefixF a.length a b

/-- `mailToPrefix` of `latex.go`: the literal bytes `":mailto"` (sic — the
colon stands first). -/
def mailToPrefix : List Nat := strBytes ":mailto"

/-- The bytes `renderAutoLink` writes for an autolink node with the given
kind, target and label (the handler acts only on entry). -/
def renderAutoLinkOut (isEmail : Bool) (url label : List Nat) : List Nat :=
  strBytes "\\href\x7b" ++
    (if isEmail && haslowerprefix url mailToPrefix then strBytes "mailto:" else []) ++
    escapeLaTeX url ++ strBytes "\x7d\x7b" ++ escapeLaTeX label ++ [125]

/-! ## Image attribute micro-parser (`renderImage`) -/

/-- Go `strings.Split(s, sep)` for a one-byte separator (`"?"`, `"&"`,
`"="`): splitting the empty string yields `[""]`, and separators at the ends
yield empty segments, as in Go. -/
def splitOnByte (sep : Nat) : List Nat → List (List Nat)
  | [] => [[]]
  | b :: rest =>
    if b = sep then [] :: splitOnByte sep rest
    else (b :: (splitOnByte sep rest).headD []) :: (splitOnByte sep rest).tail

/-- Go `strings.ReplaceAll(s, "%20", " ")`: leftmost non-overlapping
replacement of the literal `%20` by a space. -/
def replace20 : List Nat → List Nat
  | 37 :: 50 :: 48 :: rest => 32 :: replace20 rest
  | b :: rest => b :: replace20 rest
  | [] => []

/-- The recognized image attributes (Go's `attributes` map restricted to its
three possible keys; a missing key reads as the empty string). -/
structure ImgAttrs where
  width : List Nat := []
  caption : List Nat := []
  label : List Nat := []

/-- The inline diagnostic for a `key=value` pair without exactly one `=`. -/
def imgDiagInvalid (path token : List Nat) : List Nat :=
  strBytes "\n% goldmark-latex: image " ++ path ++
    strBytes " has invalid attribute " ++ token ++ [10]

/-- The inline diagnostic for an unrecognized attribute key. -/
def imgDiagUnsupported (path key : List Nat) : List Nat :=
  strBytes "\n% goldmark-latex: image " ++ path ++
    strBytes " has unsupported attribute " ++ key ++ [10]

/-- One iteration of `renderImage`'s attribute loop: split the token on
`=`, reject unless exactly two parts, then dispatch on the key (`width`,
`label`, `caption` — the latter with `%20` decoding) or emit the
unsupported-key diagnostic.  The state is the attribute record plus the
diagnostics written so far. -/
def attrStep (path : List Nat) (st : ImgAttrs × List Nat) (token : List Nat) :
    ImgAttrs × List Nat :=
  let t := splitOnByte 61 token
  if t.length ≠ 2 then (st.1, st.2 ++ imgDiagInvalid path token)
  else
    let key := t.headD []
    let val := (t.drop 1).headD []
    if key = strBytes "width" then ({ st.1 with width := val }, st.2)
    else if key = strBytes "label" then ({ st.1 with label := val }, st.2)
    else if key = strBytes "caption" then ({ st.1 with caption := replace20 val }, st.2)
    else (st.1, st.2 ++ imgDiagUnsupported path key)

/-- The fixed figure/caption/label template of `renderImage` (note the
literal space in `\label {`). -/
def imgFigure (width path caption label : List Nat) : List Nat :=
  strBytes "\\begin\x7bfigure\x7d[h]\n\t\\centering\n\t\\includegraphics[width=" ++
    width ++ strBytes "\\textwidth]\x7b" ++ path ++ strBytes "\x7d\n\t\\caption\x7b" ++
    caption ++ strBytes "\x7d\n\t\\label \x7b" ++ label ++
    strBytes "\x7d\n\\end\x7bfigure\x7d\n"

/-- The bytes `renderImage` writes on entry: the destination/title comment,
then — when `strings.Split(dest, "?")` has more than one part — the
attribute loop over the **second** part only (parts after a second `?` are
dropped by the code), then the templated figure block. -/
def renderImageOut (dest title : List Nat) : List Nat :=
  let header := strBytes "\n% goldmark-latex: destination: " ++ dest ++
    strBytes ", title: " ++ title ++ strBytes " \n"
  let tokens := splitOnByte 63 dest
  let path := tokens.headD []
  let parsed :=
    match tokens with
    | _ :: q :: _ => (splitOnByte 38 q).foldl (attrStep path) ({}, [])
    | _ => (({} : ImgAttrs), ([] : List Nat))
  header ++ parsed.2 ++
    imgFigure parsed.1.width path parsed.1.caption parsed.1.label

/-- The claim's description of the image parser ("split on the first `?`
into a path and an optional query string"): identical to `renderImageOut`
except that the query string is everything after the first `?`. -/
def renderImageSpecOut (dest title : List Nat) : List Nat :=
  let header := strBytes "\n% goldmark-latex: destination: " ++ dest ++
    strBytes ", title: " ++ title ++ strBytes " \n"
  let path := dest.takeWhile (fun b => b != 63)
  let parsed :=
    if dest.any (fun b => b == 63) then
      (splitOnByte 38 ((dest.dropWhile (fun b => b != 63)).drop 1)).foldl
        (attrStep path) ({}, [])
    else (({} : ImgAttrs), ([] : List Nat))
  header ++ parsed.2 ++
    imgFigure parsed.1.width path parsed.1.caption parsed.1.label

/-! ## Code blocks and fenced code blocks -/

/-- `supportedLang` of `latex.go`: the allow-list of language tags. -/
def supportedLang : List String :=
  ["abap", "acm", "acmscript", "acsl", "ada", "algol", "assembler", "awk",
   "basic", "clean", "idl", "c", "caml", "cil", "cobol", "comsol", "csh",
   "bash", "sh", "delphi", "eiffel", "elan", "erlang", "euphoria", "fortran",
   "gap", "go", "gcl", "gnuplot", "hansl", "haskell", "html", "inform",
   "java", "jvmis", "scala", "ksh", "lingo", "lisp", "elisp", "llvm", "logo",
   "lua", "make", "matlab", "mathematica", "mercury", "metapost", "miranda",
   "mizar", "ml", "mupad", "nastran", "ocl", "octave", "oz", "pascal",
   "perl", "php", "plasm", "postscript", "pov", "prolog", "promela",
   "pstricks", "python", "rexx", "oorexx", "reduce", "rsl", "ruby",
   "scilab", "shelxl", "simula", "sparql", "sql", "swift", "tcl", "s", "r",
   "sas", "tex", "vbscript", "verilog", "vhdl", "vrml", "xslt", "ant", "xml"]

/-- `comment` of `latex.go`: `% goldmark-latex: <msg>\n`. -/
def commentB (msg : String) : List Nat :=
  strBytes ("% goldmark-latex: " ++ msg ++ "\n")

/-- The language argument of `renderFencedCodeBlock`: the declared tag
truncated to at most 10 bytes, then probed against the allow-list; a `nil`
tag or an unsupported tag contributes nothing, a supported one is wrapped in
braces. -/
def langArg (language : Option (List Nat)) : List Nat :=
  match language with
  | none => []
  | some lng =>
    let l := lng.take (min 10 lng.length)
    if (supportedLang.map strBytes).contains l then [123] ++ l ++ [125] else []

/-- The fixed opener of `renderCodeBlock` (comment, `\begin{minted}{go}`,
then the blank line from the extra `WriteByte('\n')`). -/
def goOpener : List Nat :=
  commentB "code block start" ++ strBytes "\\begin\x7bminted\x7d\x7bgo\x7d\n" ++ [10]

/-- The bytes `renderCodeBlock` writes on entry. -/
def renderCodeBlockEnter (unsafeMode : Bool) (lines : List (List Nat)) : List Nat :=
  goOpener ++ writeRawLines unsafeMode lines

/-- The bytes `renderFencedCodeBlock` writes on entry. -/
def renderFencedEnter (language : Option (List Nat)) (unsafeMode : Bool)
    (lines : List (List Nat)) : List Nat :=
  commentB "code fenced block start" ++ strBytes "\\begin\x7bminted\x7d" ++
    langArg language ++ [10] ++ writeRawLines unsafeMode lines

/-! ## The node dispatch table and the traversal driver -/

/-- The walk directives of the traversal contract (goldmark's
`WalkContinue`, `WalkSkipChildren`, `WalkStop`). -/
inductive WalkStatus where
  | walkContinue
  | walkSkipChildren
  | walkStop
  deriving DecidableEq, Repr

/-- The node kinds registered by `RegisterFuncs` in `latex.go`. -/
inductive NodeKind where
  | document | heading | blockquote | codeBlock | fencedCodeBlock | htmlBlock
  | list | listItem | paragraph | textBlock | thematicBreak | autoLink
  | codeSpan | emphasis | image | link | rawHTML | text | strNode
  deriving DecidableEq, Repr

mutual
/-- The document tree consumed by the renderer: one constructor per
registered node kind, carrying exactly the attributes the handlers read
(heading level, list ordering, link/image destination and title, emphasis
level, code lines, text segment and break flags, raw/code flags). -/
inductive Node where
  | document (cs : NodeList)
  | heading (level : Nat) (cs : NodeList)
  | blockquote (cs : NodeList)
  | codeBlock (lines : List (List Nat))
  | fencedCodeBlock (language : Option (List Nat)) (lines : List (List Nat))
  | htmlBlock
  | list (ordered : Bool) (cs : NodeList)
  | listItem (cs : NodeList)
  | paragraph (cs : NodeList)
  | textBlock (cs : NodeList)
  | thematicBreak
  | autoLink (isEmail : Bool) (url : List Nat) (label : List Nat)
  | codeSpan (segs : List (List Nat))
  | emphasis (level : Nat) (cs : NodeList)
  | image (dest : List Nat) (title : List Nat)
  | link (dest : List Nat) (cs : NodeList)
  | rawHTML
  | text (isRaw : Bool) (hard : Bool) (soft : Bool) (seg : List Nat)
  | strNode (isCode : Bool) (isRaw : Bool) (value : List Nat)
/-- An ordered child list (a mutual inductive instead of `List Node`, so
that the traversal can recurse structurally). -/
inductive NodeList where
  | nil
  | cons (n : Node) (rest : NodeList)
end

def NodeList.isNil : NodeList → Bool
  | .nil => true
  | .cons _ _ => false

/-- The kind tag of a node (`node.Kind()`); the paragraph handler inspects
its parent's kind through this. -/
def kindOf : Node → NodeKind
  | .document _ => .document
  | .heading _ _ => .heading
  | .blockquote _ => .blockquote
  | .codeBlock _ => .codeBlock
  | .fencedCodeBlock _ _ => .fencedCodeBlock
  | .htmlBlock => .htmlBlock
  | .list _ _ => .list
  | .listItem _ => .listItem
  | .paragraph _ => .paragraph
  | .textBlock _ => .textBlock
  | .thematicBreak => .thematicBreak
  | .autoLink _ _ _ => .autoLink
  | .codeSpan _ => .codeSpan
  | .emphasis _ _ => .emphasis
  | .image _ _ => .image
  | .link _ _ => .link
  | .rawHTML => .rawHTML
  | .text _ _ _ _ => .text
  | .strNode _ _ _ => .strNode

/-- The `Renderer` configuration of `latex.go` (field names as in the
source; the preamble is the loaded byte sequence, `none` selecting the
built-in default). -/
structure Renderer where
  HeadingLevelOffset : Int := 0
  NoHeadingNumbering : Bool := false
  Preamble : Option (List Nat) := none
  Unsafe : Bool := false
  DeclareUnicode : Option (Nat → List Nat × Bool) := none
  makeTitle : Bool := false

/-- Go `fmt`'s `%v` rendering of a byte slice: decimal values in brackets,
space-separated. -/
def fmtByteSlice (bs : List Nat) : List Nat :=
  strBytes "[" ++
    List.intercalate (strBytes " ") (bs.map fun b => strBytes (Nat.repr b)) ++
    strBytes "]"

/-- `comment` of `latex.go` applied to already-formatted message bytes. -/
def commentRaw (msg : List Nat) : List Nat :=
  strBytes "% goldmark-latex: " ++ msg ++ [10]

/-- The entry emission of `renderHeading`: compute the (clamped) index, read
the command table (`none` = the index-out-of-range panic of C1), pick the
starred variant on `NoHeadingNumbering`, and write the trace comment, the
command, and — at index 5 and above — a newline. -/
def renderHeadingEnter (cfg : Renderer) (level : Nat) : Except RenderErr (List Nat) :=
  let idx := headingIndexGo cfg.HeadingLevelOffset level
  match headingTable.get? idx.toNat with
  | none => .error .headingOOB
  | some row =>
    let start := if bool2int cfg.NoHeadingNumbering = 1 then row.2 else row.1
    .ok (commentRaw (strBytes ("heading start - level " ++ Nat.repr idx.toNat ++
        ", start: ") ++ fmtByteSlice start) ++
      start ++ (if 5 ≤ idx then [10] else []))

/-- The entry emission of `renderDocument`: the start comment, the custom or
default preamble with its comments, the unicode declaration scan when a
mapping is configured (the leading newline comes from the `WriteByte('\n')`
before the loop), the begin-document marker and the optional title
command. -/
def documentEnterOut (cfg : Renderer) (dflt src : List Nat) : Except RenderErr (List Nat) :=
  let pre := match cfg.Preamble with
    | none => commentB "default preamble start" ++ dflt ++ commentB "default preamble end"
    | some p => commentB "custom preamble start" ++ p ++ commentB "custom preamble end"
  let tail := strBytes "\n\\begin\x7bdocument\x7d\n" ++
    (if cfg.makeTitle then strBytes "\\maketitle\n" else [])
  match cfg.DeclareUnicode with
  | none => .ok (commentB "start of document" ++ pre ++ tail)
  | some f =>
    match declLoop f [] (runeSeq src) with
    | .error e => .error e
    | .ok L =>
      .ok (commentB "start of document" ++ pre ++
        ([10] ++ (L.map Prod.snd).flatten) ++ tail)

/-- The list environment tag (`enumerate` for ordered lists, `itemize`
otherwise). -/
def listTag (ordered : Bool) : List Nat :=
  if ordered then strBytes "enumerate" else strBytes "itemize"

/-- The emphasis opener of `renderEmphasis` (level 2 bold, level 3 `\emph`,
else italic). -/
def emphTag (level : Nat) : List Nat :=
  if level = 2 then strBytes "\\textbf\x7b"
  else if level = 3 then strBytes "\\emph\x7b"
  else strBytes "\\textit\x7b"

/-- The dispatch table of `RegisterFuncs`: the bytes a handler writes and
the walk directive it returns, for a node of the given shape, parent kind
`pk`, next-sibling flag `hn` and direction `entering`.  `dflt` is the
embedded default preamble (an asset outside `latex.go`), `dang` the external
dangerous-URL predicate, `src` the raw source buffer.  The two reachable
panics surface as `Except.error`; every handler return carries a nil Go
error. -/
def handleNode (cfg : Renderer) (dflt : List Nat) (dang : List Nat → Bool)
    (src : List Nat) (pk : NodeKind) (hn : Bool) (n : Node) (entering : Bool) :
    Except RenderErr (List Nat × WalkStatus) :=
  match n, entering with
  | .document _, true =>
    match documentEnterOut cfg dflt src with
    | .error e => .error e
    | .ok o => .ok (o, .walkContinue)
  | .document _, false =>
    .ok (commentB "end of document" ++ strBytes "\n\\end\x7bdocument\x7d\n", .walkStop)
  | .heading level _, true =>
    match renderHeadingEnter cfg level with
    | .error e => .error e
    | .ok o => .ok (o, .walkContinue)
  | .heading _ _, false =>
    .ok ([125, 10] ++ commentB "heading end", .walkContinue)
  | .blockquote _, true =>
    .ok (strBytes "\n\\begin\x7bframed\x7d\n\\begin\x7bquote\x7d\n", .walkContinue)
  | .blockquote _, false =>
    .ok (strBytes "\\end\x7bquote\x7d\n\\end\x7bframed\x7d\n", .walkContinue)
  | .codeBlock lines, true =>
    .ok (renderCodeBlockEnter cfg.Unsafe lines, .walkContinue)
  | .codeBlock _, false =>
    .ok (strBytes "\\end\x7bminted\x7d\n" ++ commentB "code block end", .walkContinue)
  | .fencedCodeBlock language lines, true =>
    .ok (renderFencedEnter language cfg.Unsafe lines, .walkContinue)
  | .fencedCodeBlock _ _, false =>
    .ok (strBytes "\\end\x7bminted\x7d\n" ++ commentB "code fenced block end", .walkContinue)
  | .htmlBlock, _ =>
    .ok (strBytes "\n% goldmark-latex: HTML block rendering unsupported, skipped\n",
      .walkSkipChildren)
  | .list ordered _, true =>
    .ok (strBytes "\n\\begin\x7b" ++ listTag ordered ++ strBytes "\x7d\n", .walkContinue)
  | .list ordered _, false =>
    .ok (strBytes "\\end\x7b" ++ listTag ordered ++ strBytes "\x7d\n", .walkContinue)
  | .listItem _, true => .ok (strBytes "\\item~ ", .walkContinue)
  | .listItem _, false => .ok ([10], .walkContinue)
  | .paragraph _, true =>
    .ok (commentB "paragraph start (type: *ast.Paragraph)" ++
      (if pk ≠ NodeKind.list ∧ pk ≠ NodeKind.listItem then [10] else []), .walkContinue)
  | .paragraph _, false => .ok ([10] ++ commentB "paragraph end", .walkContinue)
  | .textBlock _, true => .ok ([], .walkContinue)
  | .textBlock cs, false =>
    .ok (if hn && !cs.isNil then [10] else [], .walkContinue)
  | .thematicBreak, true => .ok (strBytes "\n\\hrulefill\n" ++ [10], .walkContinue)
  | .thematicBreak, false => .ok ([], .walkContinue)
  | .autoLink isEmail url label, true =>
    .ok (renderAutoLinkOut isEmail url label, .walkContinue)
  | .autoLink _ _ _, false => .ok ([], .walkContinue)
  | .codeSpan segs, true =>
    .ok (codeSpanStart ++ segs.flatMap codeSpanPiece, .walkSkipChildren)
  | .codeSpan _, false => .ok ([125], .walkContinue)
  | .emphasis level _, true => .ok (emphTag level, .walkContinue)
  | .emphasis _ _, false => .ok ([125], .walkContinue)
  | .image dest title, true => .ok (renderImageOut dest title, .walkSkipChildren)
  | .image _ _, false => .ok ([], .walkContinue)
  | .link dest _, true =>
    .ok (strBytes "\\href\x7b" ++
      (if cfg.Unsafe || !dang dest then escapeLaTeX dest else []) ++
      strBytes "\x7d\x7b", .walkContinue)
  | .link _ _, false => .ok ([125], .walkContinue)
  | .rawHTML, _ =>
    .ok (strBytes "\n% goldmark-latex: raw HTML rendering unsupported\n",
      .walkSkipChildren)
  | .text isRaw hard soft seg, true =>
    .ok ((if isRaw then seg
      else escapeLaTeX seg ++
        (if hard then strBytes "\\\\\n\n" else if soft then [10] else [])),
      .walkContinue)
  | .text _ _ _ _, false => .ok ([], .walkContinue)
  | .strNode isCode isRaw value, true =>
    .ok ((if isCode || isRaw then value else escapeLaTeX value), .walkContinue)
  | .strNode _ _ _, false => .ok ([], .walkContinue)

mutual
/-- Modelled from the spec: the external traversal driver's depth-first
walk (goldmark's `ast.Walk` contract as §2/§4.1 describe it).  For each
node: call the handler entering; on `Stop` end the walk; otherwise walk the
children unless `SkipChildren`; a `Stop` from below ends the walk; then call
the handler leaving, `Stop` ending the walk.  The returned bytes are what
the subtree emitted, concatenated in write order. -/
def walkNode (cfg : Renderer) (dflt : List Nat) (dang : List Nat → Bool)
    (src : List Nat) (pk : NodeKind) (hn : Bool) (n : Node) :
    Except RenderErr (List Nat × WalkStatus) :=
  match handleNode cfg dflt dang src pk hn n true with
  | .error e => .error e
  | .ok (o1, st1) =>
    match st1 with
    | .walkStop => .ok (o1, .walkStop)
    | .walkSkipChildren =>
      match handleNode cfg dflt dang src pk hn n false with
      | .error e => .error e
      | .ok (o3, st3) =>
        match st3 with
        | .walkStop => .ok (o1 ++ o3, .walkStop)
        | _ => .ok (o1 ++ o3, .walkContinue)
    | .walkContinue =>
      match
        (match n with
         | .document cs => walkList cfg dflt dang src .document cs
         | .heading _ cs => walkList cfg dflt dang src .heading cs
         | .blockquote cs => walkList cfg dflt dang src .blockquote cs
         | .list _ cs => walkList cfg dflt dang src .list cs
         | .listItem cs => walkList cfg dflt dang src .listItem cs
         | .paragraph cs => walkList cfg dflt dang src .paragraph cs
         | .textBlock cs => walkList cfg dflt dang src .textBlock cs
         | .emphasis _ cs => walkList cfg dflt dang src .emphasis cs
         | .link _ cs => walkList cfg dflt dang src .link cs
         | _ => .ok ([], .walkContinue)) with
      | .error e => .error e
      | .ok (o2, st2) =>
        match st2 with
        | .walkStop => .ok (o1 ++ o2, .walkStop)
        | _ =>
          match handleNode cfg dflt dang src pk hn n false with
          | .error e => .error e
          | .ok (o3, st3) =>
            match st3 with
            | .walkStop => .ok (o1 ++ o2 ++ o3, .walkStop)
            | _ => .ok (o1 ++ o2 ++ o3, .walkContinue)
/-- Modelled from the spec: the driver's loop over a node's children,
aborting when a child's subtree requests `Stop`. -/
def walkList (cfg : Renderer) (dflt : List Nat) (dang : List Nat → Bool)
    (src : List Nat) (pk : NodeKind) (l : NodeList) :
    Except RenderErr (List Nat × WalkStatus) :=
  match l with
  | .nil => .ok ([], .walkContinue)
  | .cons c rest =>
    match walkNode cfg dflt dang src pk (!rest.isNil) c with
    | .error e => .error e
    | .ok (o, st) =>
      match st with
      | .walkStop => .ok (o, .walkStop)
      | _ =>
        match walkList cfg dflt dang src pk rest with
        | .error e => .error e
        | .ok (o', st') => .ok (o ++ o', st')
end

/-- One full render pass: walk the tree from the root and return the
emitted byte stream (the Go renderer's writer contents). -/
def renderTree (cfg : Renderer) (dflt : List Nat) (dang : List Nat → Bool)
    (src : List Nat) (t : Node) : Except RenderErr (List Nat) :=
  match walkNode cfg dflt dang src .document false t with
  | .error e => .error e
  | .ok (o, _) => .ok o

/-- The default configuration (all options at their zero values). -/
def cfgZero : Renderer := {}

/-- The configuration with heading offset 1 (every other option at its zero
value). -/
def cfgOffsetOne : Renderer := { HeadingLevelOffset := 1 }

/-! ## Theorems -/

theorem escapeRun_eq (s : List Nat) : ∀ run, escapeRun run s = run ++ escapeConcat s := by
  induction s with
  | nil => intro run; simp [escapeRun, escapeConcat]
  | cons b rest ih =>
    intro run
    cases h : escapeTable b with
    | some esc => simp [escapeRun, h, escapeConcat, ih]
    | none => simp [escapeRun, h, escapeConcat, ih]

theorem escapeLaTeX_eq_concat (s : List Nat) : escapeLaTeX s = escapeConcat s := by
  simpa using escapeRun_eq s []

theorem escapeTable_entry_nonempty (b : Nat) (esc : List Nat)
    (h : escapeTable b = some esc) : 1 ≤ esc.length := by
  unfold escapeTable at h
  split_ifs at h <;> (cases h; decide)

theorem escapeConcat_cons (b : Nat) (rest : List Nat) :
    escapeConcat (b :: rest) =
      (match escapeTable b with | some esc => esc | none => [b]) ++ escapeConcat rest := by
  simp [escapeConcat]

theorem escapeConcat_length (s : List Nat) : s.length ≤ (escapeConcat s).length := by
  induction s with
  | nil => simp [escapeConcat]
  | cons b rest ih =>
    rw [escapeConcat_cons, List.length_append, List.length_cons]
    have h2 : 1 ≤ (match escapeTable b with | some esc => esc | none => [b]).length := by
      cases h : escapeTable b with
      | some esc => simpa using escapeTable_entry_nonempty b esc h
      | none => simp
    omega

theorem escapeConcat_id (s : List Nat) (h : ∀ b ∈ s, escapeTable b = none) :
    escapeConcat s = s := by
  induction s with
  | nil => simp [escapeConcat]
  | cons b rest ih =>
    have hb : escapeTable b = none := h b (by simp)
    simp only [escapeConcat, List.flatMap_cons, hb]
    simp only [escapeConcat] at ih
    rw [ih fun x hx => h x (by simp [hx])]
    rfl

theorem escapeConcat_append (s t : List Nat) :
    escapeConcat (s ++ t) = escapeConcat s ++ escapeConcat t := by
  simp [escapeConcat]

/-- C3: the escaping engine's output is the in-order concatenation of
per-byte substitutions (reserved bytes) and identity copies (all other
bytes); consequently the output is at least as long as the input, escaping
is the identity on reserved-free input, and an input with exactly one
reserved byte maps to `prefix ++ substitution ++ suffix`. -/
theorem escapeLaTeX_correct (s : List Nat) :
    escapeLaTeX s = escapeConcat s ∧
    s.length ≤ (escapeLaTeX s).length ∧
    ((∀ b ∈ s, escapeTable b = none) → escapeLaTeX s = s) ∧
    (∀ p b q esc, s = p ++ b :: q → escapeTable b = some esc →
      (∀ x ∈ p, escapeTable x = none) → (∀ x ∈ q, escapeTable x = none) →
      escapeLaTeX s = p ++ esc ++ q) := by
  refine ⟨escapeLaTeX_eq_concat s, ?_, ?_, ?_⟩
  · rw [escapeLaTeX_eq_concat]; exact escapeConcat_length s
  · intro h; rw [escapeLaTeX_eq_concat]; exact escapeConcat_id s h
  · intro p b q esc hs hb hp hq
    subst hs
    rw [escapeLaTeX_eq_concat, escapeConcat_append, escapeConcat_cons, hb,
      escapeConcat_id p hp, escapeConcat_id q hq]
    simp

/-- Witness for `escapeLaTeX_correct`: the input `"a_b"` has exactly one
reserved byte (the underscore) and escapes to `"a\_b"`. -/
theorem escapeLaTeX_correct_witness :
    escapeLaTeX (strBytes "a_b") = strBytes "a\\_b" := by
  have h := (escapeLaTeX_correct (strBytes "a_b")).2.2.2
      (strBytes "a") 95 (strBytes "b") (strBytes "\\_")
      (by decide) (by decide) (by decide) (by decide)
  rw [h]; decide

theorem leadsWith_iff (needle hay : List Nat) :
    leadsWith hay needle = true ↔ needle <+: hay := by
  induction needle generalizing hay with
  | nil => simp [leadsWith]
  | cons b bs ih =>
    cases hay with
    | nil => simp [leadsWith]
    | cons a as =>
      simp only [leadsWith, Bool.and_eq_true, beq_iff_eq, ih, List.cons_prefix_cons]
      exact ⟨fun h => ⟨h.1.symm, h.2⟩, fun h => ⟨h.1.symm, h.2⟩⟩

theorem containsSeq_iff (hay needle : List Nat) :
    containsSeq hay needle = true ↔ needle <:+: hay := by
  induction hay with
  | nil => simp [containsSeq, List.isEmpty_iff, List.infix_nil]
  | cons a as ih =>
    simp only [containsSeq, Bool.or_eq_true, leadsWith_iff, ih]
    constructor
    · rintro (h | h)
      · exact h.isInfix
      · exact List.infix_cons h
    · intro h
      rcases h with ⟨p, q, hpq⟩
      cases p with
      | nil => left; exact ⟨q, by simpa using hpq⟩
      | cons x xs =>
        right
        exact ⟨xs, q, by simpa using congrArg List.tail hpq⟩

/-- C4: with unsafe mode on every code-block line is emitted verbatim; with
unsafe mode off a line is emitted verbatim exactly when it does not contain
the literal environment-closing sequence, and otherwise it is replaced by a
diagnostic comment that echoes the line as a comment; the check is a raw
substring search, and in either mode the emitted line bytes are the raw text
(never the escaping engine's output). -/
theorem writeRawLine_guard (unsafeMode : Bool) (text : List Nat) :
    (unsafeMode = true → writeRawLine unsafeMode text = text) ∧
    (unsafeMode = false → ¬ endCmdPrefix <:+: text → writeRawLine unsafeMode text = text) ∧
    (unsafeMode = false → endCmdPrefix <:+: text →
      writeRawLine unsafeMode text = skipDiag ++ text) ∧
    (containsSeq text endCmdPrefix = true ↔ endCmdPrefix <:+: text) ∧
    (∀ lines : List (List Nat),
      writeRawLines unsafeMode lines = lines.flatMap (writeRawLine unsafeMode)) := by
  refine ⟨?_, ?_, ?_, containsSeq_iff text endCmdPrefix, fun lines => rfl⟩
  · intro h; simp [writeRawLine, h]
  · intro h hni
    rw [← containsSeq_iff] at hni
    simp only [Bool.not_eq_true] at hni
    simp [writeRawLine, h, hni]
  · intro h hin
    rw [← containsSeq_iff] at hin
    simp [writeRawLine, h, hin]

/-- Witness for `writeRawLine_guard`: with unsafe mode off, the line
`"x \end{minted} y"` contains the closing sequence and is replaced by the
diagnostic comment echoing it. -/
theorem writeRawLine_guard_witness :
    writeRawLine false (strBytes "x \\end\x7bminted\x7d y") =
      skipDiag ++ strBytes "x \\end\x7bminted\x7d y" := by
  exact (writeRawLine_guard false (strBytes "x \\end\x7bminted\x7d y")).2.2.1 rfl
    (by rw [← containsSeq_iff]; decide)

/-- C5 counterexample: the code span with single text segment `"a_b"` is not
emitted verbatim inside the wrapper — its underscore is escaped, so the
output differs from the verbatim wrapper claimed. -/
theorem renderCodeSpan_not_verbatim :
    renderCodeSpanOut [strBytes "a_b"] ≠
      codeSpanStart ++ strBytes "a_b" ++ [125] := by
  decide

/-- C5 as amended: every code-span child segment is routed through the
escaping engine (characterized independently by `escapeConcat`), a segment
with a trailing newline is escaped without it and followed by a single
space, and the result sits inside the fixed `\texttt` wrapper. -/
theorem renderCodeSpan_escaped (segs : List (List Nat)) :
    renderCodeSpanOut segs =
      codeSpanStart ++
        (segs.flatMap fun v =>
          if v.getLast? = some 10 then escapeConcat v.dropLast ++ [32]
          else escapeConcat v) ++ [125] := by
  unfold renderCodeSpanOut
  congr 2
  apply List.flatMap_congr
  intro v _
  unfold codeSpanPiece
  rw [escapeLaTeX_eq_concat, escapeLaTeX_eq_concat]

theorem decodeFrom_size_pos (b0 : Nat) (rest : List Nat) :
    1 ≤ (decodeFrom b0 rest).2 := by
  unfold decodeFrom
  repeat' split
  all_goals simp only [Prod.snd]
  all_goals try omega
  all_goals (split_ifs <;> simp)

theorem decodeFrom_one_or_ge (b0 : Nat) (rest : List Nat) :
    (decodeFrom b0 rest).2 = 1 ∨ 0x80 ≤ (decodeFrom b0 rest).1 := by
  unfold decodeFrom
  repeat' split
  all_goals (first | omega | (simp only []; split_ifs <;> omega) | simp)

theorem decodeFrom_multibyte_ge (b0 : Nat) (rest : List Nat)
    (h : (decodeFrom b0 rest).2 ≠ 1) : 0x80 ≤ (decodeFrom b0 rest).1 :=
  (decodeFrom_one_or_ge b0 rest).resolve_left h

theorem hexRev_eq_digits (fuel x : Nat) (h : x ≤ fuel) :
    hexRev fuel x = (Nat.digits 16 x).map hexDigit := by
  induction fuel generalizing x with
  | zero =>
    interval_cases x
    simp [hexRev]
  | succ f ih =>
    cases x with
    | zero => simp [hexRev]
    | succ y =>
      have hdig : Nat.digits 16 (y + 1) = (y + 1) % 16 :: Nat.digits 16 ((y + 1) / 16) :=
        Nat.digits_def' (by norm_num) (Nat.succ_pos y)
      have hdiv : (y + 1) / 16 ≤ f := by
        have := Nat.div_lt_self (Nat.succ_pos y) (by norm_num : 1 < 16)
        omega
      rw [hdig]
      simp only [hexRev]
      simp [ih ((y + 1) / 16) hdiv]

theorem hexBytes_length (x : Nat) (h : 0 < x) :
    (hexBytes x).length = (Nat.digits 16 x).length := by
  unfold hexBytes
  rw [if_neg (by omega)]
  rw [hexRev_eq_digits x x le_rfl]
  simp

theorem hexBytes_length_le_four (x : Nat) (h : x < 65536) :
    (hexBytes x).length ≤ 4 := by
  rcases Nat.eq_zero_or_pos x with h0 | h0
  · subst h0; decide
  · rw [hexBytes_length x h0, Nat.digits_len 16 x (by norm_num) (by omega)]
    have := Nat.log_lt_of_lt_pow (b := 16) (x := 4) (by omega : x ≠ 0)
      (by norm_num; omega)
    omega

theorem hexBytes_length_ge_two (x : Nat) (h : 16 ≤ x) :
    2 ≤ (hexBytes x).length := by
  rw [hexBytes_length x (by omega), Nat.digits_len 16 x (by norm_num) (by omega)]
  have := Nat.le_log_of_pow_le (b := 16) (x := 1) (y := x) (by norm_num) (by omega)
  omega

theorem hexBytes_length_ge_five (x : Nat) (h : 65536 ≤ x) :
    5 ≤ (hexBytes x).length := by
  rw [hexBytes_length x (by omega), Nat.digits_len 16 x (by norm_num) (by omega)]
  have := Nat.le_log_of_pow_le (b := 16) (x := 4) (y := x) (by norm_num) (by omega)
  omega

theorem mem_fdAux (l : List Nat) : ∀ seen c, c ∈ fdAux seen l ↔ c ∉ seen ∧ c ∈ l := by
  induction l with
  | nil => simp [fdAux]
  | cons a l ih =>
    intro seen c
    by_cases ha : a ∈ seen
    · rw [fdAux, if_pos ha]
      rw [ih seen c]
      simp only [List.mem_cons]
      constructor
      · rintro ⟨h1, h2⟩; exact ⟨h1, Or.inr h2⟩
      · rintro ⟨h1, h2 | h2⟩
        · exact absurd (h2 ▸ ha) h1
        · exact ⟨h1, h2⟩
    · rw [fdAux, if_neg ha]
      simp only [List.mem_cons, ih]
      constructor
      · rintro (rfl | ⟨h1, h2⟩)
        · exact ⟨ha, Or.inl rfl⟩
        · exact ⟨fun hc => h1 (Or.inr hc), Or.inr h2⟩
      · rintro ⟨h1, rfl | h2⟩
        · exact Or.inl rfl
        · by_cases hca : c = a
          · exact Or.inl hca
          · refine Or.inr ⟨?_, h2⟩
            intro hc
            rcases hc with h | h
            · exact hca h
            · exact h1 h

theorem nodup_fdAux (l : List Nat) : ∀ seen, (fdAux seen l).Nodup := by
  induction l with
  | nil => intro seen; simp [fdAux]
  | cons a l ih =>
    intro seen
    by_cases ha : a ∈ seen
    · rw [fdAux, if_pos ha]; exact ih seen
    · rw [fdAux, if_neg ha]
      refine List.nodup_cons.mpr ⟨?_, ih _⟩
      intro hmem
      exact ((mem_fdAux l _ a).mp hmem).1 (List.mem_cons_self a seen)

theorem pairwise_fdAux (l : List Nat) : ∀ seen,
    (fdAux seen l).Pairwise (fun a b => l.indexOf a < l.indexOf b) := by
  induction l with
  | nil => intro seen; simp [fdAux]
  | cons a l ih =>
    intro seen
    by_cases ha : a ∈ seen
    · rw [fdAux, if_pos ha]
      refine List.Pairwise.imp_of_mem ?_ (ih seen)
      intro x y hx hy hlt
      have hxm := (mem_fdAux l seen x).mp hx
      have hym := (mem_fdAux l seen y).mp hy
      have hxa : a ≠ x := fun h => hxm.1 (by rw [← h]; exact ha)
      have hya : a ≠ y := fun h => hym.1 (by rw [← h]; exact ha)
      rw [List.indexOf_cons_ne _ hxa, List.indexOf_cons_ne _ hya]
      omega
    · rw [fdAux, if_neg ha]
      refine List.pairwise_cons.mpr ⟨?_, ?_⟩
      · intro y hy
        have hym := (mem_fdAux l _ y).mp hy
        have hya : a ≠ y := fun h => hym.1 (by rw [← h]; exact List.mem_cons_self a seen)
        rw [List.indexOf_cons_self, List.indexOf_cons_ne _ hya]
        omega
      · refine List.Pairwise.imp_of_mem ?_ (ih (a :: seen))
        intro x y hx hy hlt
        have hxm := (mem_fdAux l _ x).mp hx
        have hym := (mem_fdAux l _ y).mp hy
        have hxa : a ≠ x := fun h => hxm.1 (by rw [← h]; exact List.mem_cons_self a seen)
        have hya : a ≠ y := fun h => hym.1 (by rw [← h]; exact List.mem_cons_self a seen)
        rw [List.indexOf_cons_ne _ hxa, List.indexOf_cons_ne _ hya]
        omega

theorem padFor_some_of_len (k : Nat) (h2 : 2 ≤ k) (h4 : k ≤ 4) :
    ∃ pad, padFor k = some pad := by
  interval_cases k <;> exact ⟨_, rfl⟩

theorem padFor_none_of_len (k : Nat) (h : 5 ≤ k) : padFor k = none := by
  unfold padFor
  rw [if_neg]
  push_neg
  intro hj
  omega

theorem emitDecl_ok (r : Nat) (replace : List Nat) (h1 : 128 ≤ r) (h2 : r < 65536) :
    ∃ dir, emitDecl r replace = .ok dir := by
  obtain ⟨pad, hpad⟩ := padFor_some_of_len (hexBytes r).length
    (hexBytes_length_ge_two r (by omega)) (hexBytes_length_le_four r h2)
  exact ⟨_, by rw [emitDecl, hpad]⟩

/-- The declaration loop never fails and collects exactly the first
occurrence of each replaced multi-byte code point, in source order, when
every replaced multi-byte code point lies below `0x10000` (otherwise the
padding panics, see `unicode_padding_bug`). -/
theorem declLoop_ok (f : Nat → List Nat × Bool) (rs : List (Nat × Nat))
    (hge : ∀ p ∈ rs, p.2 ≠ 1 → 128 ≤ p.1)
    (hlt : ∀ p ∈ rs, p.2 ≠ 1 → (f p.1).2 = true → p.1 < 65536) :
    ∀ declared, ∃ L, declLoop f declared rs = .ok L ∧
      L.map Prod.fst = (fdAux declared (nonAsciiRunes rs)).filter fun c => (f c).2 := by
  induction rs with
  | nil => intro declared; exact ⟨[], rfl, by simp [fdAux, nonAsciiRunes]⟩
  | cons p rest ih =>
    intro declared
    obtain ⟨r, l⟩ := p
    have hge' : ∀ p ∈ rest, p.2 ≠ 1 → 128 ≤ p.1 := fun p hp => hge p (List.mem_cons_of_mem _ hp)
    have hlt' : ∀ p ∈ rest, p.2 ≠ 1 → (f p.1).2 = true → p.1 < 65536 :=
      fun p hp => hlt p (List.mem_cons_of_mem _ hp)
    by_cases hl : l = 1
    · subst hl
      obtain ⟨L, hL, hmap⟩ := ih hge' hlt' declared
      refine ⟨L, ?_, ?_⟩
      · rw [declLoop, if_pos rfl]; exact hL
      · rw [hmap]
        simp [nonAsciiRunes]
    · by_cases hr : r ∈ declared
      · obtain ⟨L, hL, hmap⟩ := ih hge' hlt' declared
        refine ⟨L, ?_, ?_⟩
        · rw [declLoop, if_neg hl, if_pos hr]; exact hL
        · rw [hmap]
          have : nonAsciiRunes ((r, l) :: rest) = r :: nonAsciiRunes rest := by
            simp [nonAsciiRunes, List.filter_cons, hl]
          rw [this, fdAux, if_pos hr]
      · have hna : nonAsciiRunes ((r, l) :: rest) = r :: nonAsciiRunes rest := by
          simp [nonAsciiRunes, List.filter_cons, hl]
        by_cases hrep : (f r).2 = true
        · have hr128 : 128 ≤ r := hge (r, l) (List.mem_cons_self _ _) hl
          have hr65536 : r < 65536 := hlt (r, l) (List.mem_cons_self _ _) hl hrep
          obtain ⟨dir, hdir⟩ := emitDecl_ok r (f r).1 hr128 hr65536
          obtain ⟨L, hL, hmap⟩ := ih hge' hlt' (r :: declared)
          refine ⟨(r, dir) :: L, ?_, ?_⟩
          · simp [declLoop, hl, hr, hrep, hdir, hL]
          · rw [hna, fdAux, if_neg hr]
            rw [List.filter_cons, if_pos (by simpa using hrep)]
            simp only [List.map_cons]
            rw [hmap]
        · obtain ⟨L, hL, hmap⟩ := ih hge' hlt' (r :: declared)
          refine ⟨L, ?_, ?_⟩
          · simp [declLoop, hl, hr, hrep, hL]
          · rw [hna, fdAux, if_neg hr]
            rw [List.filter_cons, if_neg (by simpa using hrep)]
            exact hmap

theorem runeSeqF_multibyte_ge (fuel : Nat) :
    ∀ s p, p ∈ runeSeqF fuel s → p.2 ≠ 1 → 128 ≤ p.1 := by
  induction fuel with
  | zero => intro s p hp; simp [runeSeqF] at hp
  | succ f ih =>
    intro s p hp hne
    cases s with
    | nil => simp [runeSeqF] at hp
    | cons b rest =>
      rw [runeSeqF] at hp
      rcases List.mem_cons.mp hp with h | h
      · subst h; exact decodeFrom_multibyte_ge b rest hne
      · exact ih _ p h hne

theorem runeSeq_multibyte_ge (source : List Nat) :
    ∀ p ∈ runeSeq source, p.2 ≠ 1 → 128 ≤ p.1 :=
  fun p hp => runeSeqF_multibyte_ge source.length source p hp

/-- C6 as amended: when a unicode-replacement function is configured and
every replaced multi-byte code point of the source is below `U+10000` (the
padding crash of C7 is not triggered), the Document enter handler's single
scan collects, in first-occurrence order, exactly one declaration directive
for each distinct multi-byte code point that the function marks replaced:
the emitted code-point sequence is duplicate-free, membership is exactly
"occurs as a multi-byte unit and is replaced", and the emission order of two
distinct code points follows the order of their first occurrences in the
decoded source. -/
theorem unicode_decl_collector (source : List Nat) (f : Nat → List Nat × Bool)
    (hlt : ∀ p ∈ runeSeq source, p.2 ≠ 1 → (f p.1).2 = true → p.1 < 65536) :
    ∃ L, declLoop f [] (runeSeq source) = .ok L ∧
      L.map Prod.fst =
        (fdAux [] (nonAsciiRunes (runeSeq source))).filter (fun c => (f c).2) ∧
      (L.map Prod.fst).Nodup ∧
      (L.map Prod.fst).Pairwise (fun a b =>
        (nonAsciiRunes (runeSeq source)).indexOf a <
          (nonAsciiRunes (runeSeq source)).indexOf b) ∧
      (∀ c, c ∈ L.map Prod.fst ↔
        c ∈ nonAsciiRunes (runeSeq source) ∧ (f c).2 = true) := by
  obtain ⟨L, hL, hmap⟩ :=
    declLoop_ok f (runeSeq source) (runeSeq_multibyte_ge source) hlt []
  refine ⟨L, hL, hmap, ?_, ?_, ?_⟩
  · rw [hmap]
    exact (nodup_fdAux (nonAsciiRunes (runeSeq source)) []).filter _
  · rw [hmap]
    exact (pairwise_fdAux (nonAsciiRunes (runeSeq source)) []).filter _
  · intro c
    rw [hmap, List.mem_filter]
    rw [mem_fdAux]
    simp

/-- Witness for `unicode_decl_collector`: the source `"éé"` (UTF-8
`C3 A9 C3 A9`, the same two-byte code point `U+00E9` twice) with an
always-replace mapping. -/
theorem unicode_decl_collector_witness :
    ∃ L, declLoop (fun _ => (strBytes "X", true)) []
        (runeSeq [195, 169, 195, 169]) = .ok L ∧
      L.map Prod.fst =
        (fdAux [] (nonAsciiRunes (runeSeq [195, 169, 195, 169]))).filter
          (fun c => ((fun _ => (strBytes "X", true)) c).2) ∧
      (L.map Prod.fst).Nodup ∧
      (L.map Prod.fst).Pairwise (fun a b =>
        (nonAsciiRunes (runeSeq [195, 169, 195, 169])).indexOf a <
          (nonAsciiRunes (runeSeq [195, 169, 195, 169])).indexOf b) ∧
      (∀ c, c ∈ L.map Prod.fst ↔
        c ∈ nonAsciiRunes (runeSeq [195, 169, 195, 169]) ∧
          ((fun _ => (strBytes "X", true)) c).2 = true) :=
  unicode_decl_collector [195, 169, 195, 169] (fun _ => (strBytes "X", true))
    (by decide)

/-- C6 counterexample: the source `"😀😀"` (UTF-8 `F0 9F 98 80` twice, the
same code point `U+1F600` twice) with an always-replace mapping makes the
declaration scan crash on the first occurrence (the padding slice bound is
negative), so the claimed "exactly one declaration directive" is never
emitted: the collector produces no directive list at all. -/
theorem unicode_decl_crash :
    declLoop (fun _ => (strBytes "X", true)) []
        (runeSeq [240, 159, 152, 128, 240, 159, 152, 128]) =
      .error .padOOB ∧
    ¬ ∃ L, declLoop (fun _ => (strBytes "X", true)) []
        (runeSeq [240, 159, 152, 128, 240, 159, 152, 128]) = .ok L := by
  refine ⟨rfl, ?_⟩
  rintro ⟨L, hL⟩
  rw [show declLoop (fun _ => (strBytes "X", true)) []
        (runeSeq [240, 159, 152, 128, 240, 159, 152, 128]) =
      .error .padOOB from rfl] at hL
  cases hL

/-- C7: the zero-padding computation `zeropad[:2-(len(num)-2)]` of the
unicode declaration emitter leaves the bounds of the two-byte padding string
for every code point above `U+FFFF` (five or more hex digits give a negative
slice bound, a runtime panic in Go), so emission fails for exactly those
replaced code points the claim says must succeed; below `U+10000` the
directive is emitted with the code point as lower-case hex zero-padded to at
least two digits (e.g. `U+00E9` renders as `00e9`). -/
theorem unicode_padding_bug :
    (hexBytes 0x1F600).length = 5 ∧
    padFor 5 = none ∧
    emitDecl 0x1F600 (strBytes "X") = .error .padOOB ∧
    emitDecl 0xE9 (strBytes "e") =
      .ok (strBytes "\\DeclareUnicodeCharacter\x7b00e9\x7d\x7be\x7d\n") ∧
    (∀ r, 65536 ≤ r → ∀ replace, emitDecl r replace = .error .padOOB) := by
  refine ⟨by decide, by decide, rfl, rfl, ?_⟩
  intro r hr replace
  rw [emitDecl, padFor_none_of_len _ (hexBytes_length_ge_five r hr)]

/-- Witness for `unicode_padding_bug`: the first code point past `U+FFFF`
also crashes the emitter. -/
theorem unicode_padding_bug_witness :
    emitDecl 65536 (strBytes "Y") = .error .padOOB :=
  unicode_padding_bug.2.2.2.2 65536 le_rfl (strBytes "Y")

/-- C1: the heading handler computes `max(0, min(6, offset+level-1))`, not
the claimed `clamp(level-1+offset, 0, 5)`: levels 1 (offset 0) and 1
(offset −5) do land on index 0, but level 7 with offset 0 produces index 6 —
one past the six-entry command table, an index-out-of-range panic rather
than the claimed bold fallback at index 5 — and in general the table read
fails exactly when `offset + level - 1 ≥ 6`. -/
theorem heading_overflow_bug :
    headingIndexGo 0 1 = 0 ∧
    headingIndexGo (-5) 1 = 0 ∧
    headingClampSpec 0 7 = 5 ∧
    headingIndexGo 0 7 = 6 ∧
    headingTable.length = 6 ∧
    headingRow 0 7 = none ∧
    (∀ offset : Int, ∀ level : Nat,
      headingRow offset level = none ↔ 6 ≤ offset + level - 1) := by
  refine ⟨by decide, by decide, by decide, by decide, by decide, ?_, ?_⟩
  · rw [headingRow, List.get?_eq_none]
    decide
  · intro offset level
    rw [headingRow, List.get?_eq_none]
    show 6 ≤ _ ↔ _
    unfold headingIndexGo
    omega

/-- C9 counterexample: the email autolink targets `"MAILTO:x@y"` and
`"mailto:x@y"` do **not** produce identical rendered output — neither
matches the code's `":mailto"` marker, so neither gets a prefix, and the
emitted target/label bytes keep their original case, which differs. -/
theorem renderAutoLink_case_outputs_differ :
    renderAutoLinkOut true (strBytes "MAILTO:x@y") (strBytes "MAILTO:x@y") ≠
      renderAutoLinkOut true (strBytes "mailto:x@y") (strBytes "mailto:x@y") := by
  decide

/-- C9 as amended: the mailto detection treats `"MAILTO:x@y"` and
`"mailto:x@y"` identically (the comparison folds case via the
locale-invariant `toLowerGo`; against the code's `":mailto"` marker both
fail), `"mailto2:x"` is not matched, and the `mailto:` scheme prefix is
prepended exactly once when the marker matches and never otherwise. -/
theorem renderAutoLink_mailto (url label : List Nat) :
    haslowerprefix (strBytes "MAILTO:x@y") mailToPrefix =
      haslowerprefix (strBytes "mailto:x@y") mailToPrefix ∧
    haslowerprefix (strBytes "mailto2:x") mailToPrefix = false ∧
    ( haslowerprefix url mailToPrefix = true →
      renderAutoLinkOut true url label =
        strBytes "\\href\x7b" ++ strBytes "mailto:" ++ escapeLaTeX url ++
          strBytes "\x7d\x7b" ++ escapeLaTeX label ++ [125]) ∧
    ( haslowerprefix url mailToPrefix = false →
      renderAutoLinkOut true url label =
        strBytes "\\href\x7b" ++ escapeLaTeX url ++
          strBytes "\x7d\x7b" ++ escapeLaTeX label ++ [125]) := by
  refine ⟨by decide, by decide, ?_, ?_⟩
  · intro h
    simp [renderAutoLinkOut, h]
  · intro h
    simp [renderAutoLinkOut, h]

/-- Witness for `renderAutoLink_mailto`: the target `":mailto:a"` does match
the code's marker and receives the prefix exactly once. -/
theorem renderAutoLink_mailto_witness :
    renderAutoLinkOut true (strBytes ":mailto:a") (strBytes "a") =
      strBytes "\\href\x7b" ++ strBytes "mailto:" ++ escapeLaTeX (strBytes ":mailto:a") ++
        strBytes "\x7d\x7b" ++ escapeLaTeX (strBytes "a") ++ [125] :=
  (renderAutoLink_mailto (strBytes ":mailto:a") (strBytes "a")).2.2.1 (by decide)

theorem splitOnByte_ne_nil (sep : Nat) (l : List Nat) : splitOnByte sep l ≠ [] := by
  cases l with
  | nil => simp [splitOnByte]
  | cons b rest =>
    by_cases hb : b = sep <;> simp [splitOnByte, hb]

theorem splitOnByte_head (sep : Nat) (l : List Nat) :
    (splitOnByte sep l).headD [] = l.takeWhile (fun b => b != sep) := by
  induction l with
  | nil => simp [splitOnByte]
  | cons b rest ih =>
    by_cases hb : b = sep
    · subst hb
      simp [splitOnByte, List.takeWhile_cons]
    · simp [splitOnByte, hb, List.takeWhile_cons]
      simpa using ih

/-- C8 counterexample: for the destination `"p.png?width=1?x"` (two `?`),
the code keeps only the text between the two `?` as the query (width
becomes `1`, no diagnostic), while the claimed split-on-first-`?` parse
gives the query `"width=1?x"`, whose single token has two `=`-parts
`width` / `1?x` and sets width to `1?x`; the rendered outputs differ. -/
theorem renderImage_split_differs :
    renderImageOut (strBytes "p.png?width=1?x") [] ≠
      renderImageSpecOut (strBytes "p.png?width=1?x") [] := by
  decide

set_option maxRecDepth 16384 in
/-- C8 as amended: image destinations are split on `?` with the path the
text before the first `?` and the query string the text between the first
and second `?` (text after a second `?` is discarded); the query splits on
`&` into `key=value` pairs with keys `width`, `label`, `caption` (caption
values have literal `%20` replaced by spaces); unrecognized keys and pairs
without exactly one `=` each produce one inline diagnostic comment instead
of aborting; the destination `"pic.png?width=0.5&caption=A%20B&bogus=1"`
yields path `pic.png`, width `0.5`, caption `A B`, exactly one diagnostic
(for `bogus`), and the missing `label` renders as an empty template
field. -/
theorem renderImage_attrs (dest : List Nat) :
    renderImageOut (strBytes "pic.png?width=0.5&caption=A%20B&bogus=1") [] =
      (strBytes "\n% goldmark-latex: destination: " ++
        strBytes "pic.png?width=0.5&caption=A%20B&bogus=1" ++
        strBytes ", title: " ++ strBytes " \n") ++
      imgDiagUnsupported (strBytes "pic.png") (strBytes "bogus") ++
      imgFigure (strBytes "0.5") (strBytes "pic.png") (strBytes "A B") [] ∧
    (splitOnByte 63 dest).headD [] = dest.takeWhile (fun b => b != 63) ∧
    (∀ path st token, (splitOnByte 61 token).length ≠ 2 →
      attrStep path st token = (st.1, st.2 ++ imgDiagInvalid path token)) ∧
    (∀ path st token, (splitOnByte 61 token).length = 2 →
      (splitOnByte 61 token).headD [] ≠ strBytes "width" →
      (splitOnByte 61 token).headD [] ≠ strBytes "label" →
      (splitOnByte 61 token).headD [] ≠ strBytes "caption" →
      attrStep path st token =
        (st.1, st.2 ++ imgDiagUnsupported path ((splitOnByte 61 token).headD []))) := by
  refine ⟨by decide, splitOnByte_head 63 dest, ?_, ?_⟩
  · intro path st token h
    simp only [attrStep]
    rw [if_pos h]
  · intro path st token h hk1 hk2 hk3
    simp only [attrStep]
    rw [if_neg (fun hc => hc h), if_neg hk1, if_neg hk2, if_neg hk3]

/-- Witness for `renderImage_attrs`: a token without `=` produces the
invalid-attribute diagnostic and leaves the attributes unchanged. -/
theorem renderImage_attrs_witness :
    attrStep (strBytes "p") ({}, []) (strBytes "bogus") =
      ({}, ([] : List Nat) ++ imgDiagInvalid (strBytes "p") (strBytes "bogus")) :=
  (renderImage_attrs []).2.2.1 (strBytes "p") ({}, []) (strBytes "bogus") (by decide)

/-- C10: every indented (non-fenced) code block opens with the fixed text
`\begin{minted}{go}` followed by a blank line, independent of the
configuration and of the block's content; fenced blocks differ — their
language argument depends on the declared tag (`go` yields `{go}`, an
unsupported tag like `text` yields nothing, so the emitted openers
differ). -/
theorem renderCodeBlock_go_opener (u u' : Bool) (lines lines' : List (List Nat)) :
    (renderCodeBlockEnter u lines).take goOpener.length =
      commentB "code block start" ++ strBytes "\\begin\x7bminted\x7d\x7bgo\x7d\n\n" ∧
    (renderCodeBlockEnter u lines).take goOpener.length =
      (renderCodeBlockEnter u' lines').take goOpener.length ∧
    renderCodeBlockEnter u lines = goOpener ++ writeRawLines u lines ∧
    langArg (some (strBytes "go")) = strBytes "\x7bgo\x7d" ∧
    langArg (some (strBytes "text")) = [] ∧
    renderFencedEnter (some (strBytes "go")) u lines ≠
      renderFencedEnter (some (strBytes "text")) u lines := by
  have htake : ∀ v : Bool, ∀ ls : List (List Nat),
      (renderCodeBlockEnter v ls).take goOpener.length = goOpener := by
    intro v ls
    rw [renderCodeBlockEnter, List.take_left]
  refine ⟨?_, ?_, rfl, by decide, by decide, ?_⟩
  · rw [htake u lines]; decide
  · rw [htake u lines, htake u' lines']
  · intro heq
    have h1 : renderFencedEnter (some (strBytes "go")) u lines =
        (commentB "code fenced block start" ++ strBytes "\\begin\x7bminted\x7d") ++
          ((strBytes "\x7bgo\x7d" ++ [10]) ++ writeRawLines u lines) := by
      rw [renderFencedEnter, show langArg (some (strBytes "go")) = strBytes "\x7bgo\x7d"
        from by decide]
      simp [List.append_assoc]
    have h2 : renderFencedEnter (some (strBytes "text")) u lines =
        (commentB "code fenced block start" ++ strBytes "\\begin\x7bminted\x7d") ++
          (([10] : List Nat) ++ writeRawLines u lines) := by
      rw [renderFencedEnter, show langArg (some (strBytes "text")) = [] from by decide]
      simp [List.append_assoc]
    rw [h1, h2] at heq
    have heq' := List.append_cancel_left heq
    simp [strBytes] at heq'

set_option maxRecDepth 8192 in
/-- C2: rendering does **not** run to completion for every syntactically
valid tree and configuration: the tree `Document [Heading level 6]` — a tree
goldmark's parser produces — under heading offset 1 makes `renderHeading`
index the six-entry command table at 6, an index-out-of-range panic, so the
walk dies before the end-document marker.  With offset 0 the same tree
renders to completion with a matched `\begin{document}` / `\end{document}`
envelope, and across the whole dispatch table the Document exit handler is
the only handler invocation that returns the `Stop` directive (all handler
returns carry a nil error; the only failure paths are the two modelled
panics). -/
theorem render_completion_bug :
    renderTree cfgOffsetOne [] (fun _ => false) []
      (.document (.cons (.heading 6 .nil) .nil)) = .error .headingOOB ∧
    (∃ a b, renderTree cfgZero [] (fun _ => false) []
        (.document (.cons (.heading 6 .nil) .nil)) =
      .ok (a ++ strBytes "\n\\begin\x7bdocument\x7d\n" ++ b ++
        strBytes "\n\\end\x7bdocument\x7d\n")) ∧
    (∀ pk hn n entering o,
      handleNode cfgZero [] (fun _ => false) [] pk hn n entering = .ok (o, .walkStop) →
      entering = false ∧ ∃ cs, n = .document cs) := by
  refine ⟨rfl, ?_, ?_⟩
  · exact ⟨commentB "start of document" ++ commentB "default preamble start" ++
      commentB "default preamble end",
      commentB "heading start - level 5, start: [92 116 101 120 116 98 102 123]" ++
        strBytes "\\textbf\x7b\n\x7d\n" ++ commentB "heading end" ++
        commentB "end of document", rfl⟩
  · intro pk hn n entering o h
    cases n <;> cases entering <;>
      first
        | exact ⟨rfl, _, rfl⟩
        | (simp only [handleNode] at h
           first
             | (split at h <;> simp_all)
             | simp_all)

/-- Witness for `render_completion_bug`: the Document exit handler is a
handler invocation returning `Stop`, and the theorem pins it as such. -/
theorem render_completion_bug_witness :
    false = false ∧ ∃ cs, Node.document .nil = Node.document cs :=
  render_completion_bug.2.2 .document false (.document .nil) false
    (commentB "end of document" ++ strBytes "\n\\end\x7bdocument\x7d\n") rfl
